import Mathlib

/-!
Shallow embedding of the dendro compute-resource daemon and SDK
(`dendro/compute_resource/start_compute_resource.py`, `dendro/sdk/App.py`,
`dendro/sdk/AppProcessor.py`, `dendro/common/dendro_types.py`).

Python floats (timestamps, elapsed times) are modelled as rationals.
Python `dict`s with optional keys are modelled as structures with `Option`
fields (`none` = key absent).  Python exceptions are modelled with
`Except String`.  Side effects (launching a job, PUTting a job status,
adding a job to a SLURM handler) are modelled as an explicit effect trace.
-/

namespace Dendro

/-- A JSON-ish value usable as a parameter default / options / job parameter
value.  The parameter type universe of the SDK is closed
(`str, int, float, bool, List[str], List[int], List[float], List[bool]`),
so list values are flattened accordingly. -/
inductive ParamValue where
  | str (s : String)
  | int (n : Int)
  | num (q : Rat)
  | bool (b : Bool)
  | listStr (l : List String)
  | listInt (l : List Int)
  | listNum (l : List Rat)
  | listBool (l : List Bool)
deriving DecidableEq

/-- The closed set of SDK parameter types (`_type_map` in AppProcessor.py). -/
inductive ParamType where
  | tStr
  | tInt
  | tFloat
  | tBool
  | tListStr
  | tListInt
  | tListFloat
  | tListBool
deriving DecidableEq

/-- `_type_to_string` in AppProcessor.py (total on the closed type set). -/
def typeToString : ParamType → String
  | .tStr => "str"
  | .tInt => "int"
  | .tFloat => "float"
  | .tBool => "bool"
  | .tListStr => "List[str]"
  | .tListInt => "List[int]"
  | .tListFloat => "List[float]"
  | .tListBool => "List[bool]"

/-- `_type_from_string` in AppProcessor.py (raises ValueError on unknown). -/
def typeFromString (s : String) : Except String ParamType :=
  if s = "str" then .ok .tStr
  else if s = "int" then .ok .tInt
  else if s = "float" then .ok .tFloat
  else if s = "bool" then .ok .tBool
  else if s = "List[str]" then .ok .tListStr
  else if s = "List[int]" then .ok .tListInt
  else if s = "List[float]" then .ok .tListFloat
  else if s = "List[bool]" then .ok .tListBool
  else .error ("Unexpected type: " ++ s)

/-- `dataclass AppProcessorInput` (AppProcessor.py). -/
structure AppProcessorInput where
  name : String
  description : String
  list : Bool
deriving DecidableEq

/-- `dataclass AppProcessorOutput` (AppProcessor.py). -/
structure AppProcessorOutput where
  name : String
  description : String
deriving DecidableEq

/-- `dataclass AppProcessorParameter` (AppProcessor.py).  `default = none`
models the `PydanticUndefined` sentinel. -/
structure AppProcessorParameter where
  name : String
  description : String
  type : ParamType
  default : Option ParamValue
  options : Option ParamValue
  secret : Bool
deriving DecidableEq

/-- `dataclass AppProcessorAttribute` (AppProcessor.py). -/
structure AppProcessorAttribute where
  name : String
  value : String
deriving DecidableEq

/-- `dataclass AppProcessorTag` (AppProcessor.py). -/
structure AppProcessorTag where
  tag : String
deriving DecidableEq

/-- `class AppProcessor` (AppProcessor.py).  The Python class also holds an
optional `_processor_class` (a Python class object, not spec-visible and
always `None` after `from_spec`); it is omitted here. -/
structure AppProcessor where
  name : String
  description : String
  label : String
  inputs : List AppProcessorInput
  outputs : List AppProcessorOutput
  parameters : List AppProcessorParameter
  attributes : List AppProcessorAttribute
  tags : List AppProcessorTag
deriving DecidableEq

/-- `ComputeResourceSlurmOpts` (dendro_types.py). -/
structure ComputeResourceSlurmOpts where
  partition : Option String
  time : Option String
  cpusPerTask : Option Int
  otherOpts : Option String
deriving DecidableEq

/-- `ComputeResourceAwsBatchOpts` (dendro_types.py). -/
structure ComputeResourceAwsBatchOpts where
  jobQueue : String
  jobDefinition : String
deriving DecidableEq

/-- `class App` (App.py), restricted to the fields the daemon and the spec
round trip use.  `awsBatchJobQueue`, `awsBatchJobDefinition` and `slurmOpts`
are the placement attributes set by `from_spec_uri`. -/
structure App where
  name : String
  description : String
  appImage : Option String
  appExecutable : Option String
  processors : List AppProcessor
  awsBatchJobQueue : Option String
  awsBatchJobDefinition : Option String
  slurmOpts : Option ComputeResourceSlurmOpts
deriving DecidableEq

/-- Python truthiness test `not x` for an optional string:
`None` and the empty string are falsy. -/
def strOptFalsy : Option String → Bool
  | none => true
  | some s => s = ""

/-- The `App.__init__` constructor (App.py): raises `DendroAppException`
when both `app_image` and `app_executable` are falsy. -/
def App.init (name description : String)
    (appImage appExecutable : Option String) : Except String App :=
  if strOptFalsy appImage then
    if strOptFalsy appExecutable then
      .error "You must set app_executable if app_image is not set"
    else
      .ok ⟨name, description, appImage, appExecutable, [], none, none, none⟩
  else
    .ok ⟨name, description, appImage, appExecutable, [], none, none, none⟩

/-- The dict emitted by `AppProcessorInput.get_spec`: the `list` key is
present only when `self.list` is true. -/
structure InputSpec where
  name : String
  description : String
  list : Option Bool
deriving DecidableEq

/-- The dict emitted by `AppProcessorOutput.get_spec`. -/
structure OutputSpec where
  name : String
  description : String
deriving DecidableEq

/-- The dict emitted by `AppProcessorParameter.get_spec`: `default` is
present only when the dataclass default is not `PydanticUndefined`,
`options` only when not `None`, `secret` only when true. -/
structure ParameterSpec where
  name : String
  description : String
  type : String
  default : Option ParamValue
  options : Option ParamValue
  secret : Option Bool
deriving DecidableEq

/-- The dict emitted by `AppProcessorAttribute.get_spec`. -/
structure AttributeSpec where
  name : String
  value : String
deriving DecidableEq

/-- The dict emitted by `AppProcessorTag.get_spec`. -/
structure TagSpec where
  tag : String
deriving DecidableEq

/-- The dict emitted by `AppProcessor.get_spec`. -/
structure ProcessorSpec where
  name : String
  description : String
  label : String
  inputs : List InputSpec
  outputs : List OutputSpec
  parameters : List ParameterSpec
  attributes : List AttributeSpec
  tags : List TagSpec
deriving DecidableEq

/-- The dict emitted by `App.get_spec`.  Note the redundant `executable`
key (a copy of `appExecutable`) which `App.from_spec` ignores. -/
structure AppSpec where
  name : String
  description : String
  appImage : Option String
  appExecutable : Option String
  executable : Option String
  processors : List ProcessorSpec
deriving DecidableEq

def AppProcessorInput.get_spec (i : AppProcessorInput) : InputSpec :=
  { name := i.name, description := i.description,
    list := if i.list then some true else none }

def AppProcessorInput.from_spec (s : InputSpec) : AppProcessorInput :=
  { name := s.name, description := s.description, list := s.list.getD false }

def AppProcessorOutput.get_spec (o : AppProcessorOutput) : OutputSpec :=
  { name := o.name, description := o.description }

def AppProcessorOutput.from_spec (s : OutputSpec) : AppProcessorOutput :=
  { name := s.name, description := s.description }

def AppProcessorParameter.get_spec (p : AppProcessorParameter) : ParameterSpec :=
  { name := p.name, description := p.description,
    type := typeToString p.type,
    default := p.default,
    options := p.options,
    secret := if p.secret then some true else none }

def AppProcessorParameter.from_spec (s : ParameterSpec) :
    Except String AppProcessorParameter := do
  let t ← typeFromString s.type
  .ok { name := s.name, description := s.description, type := t,
        default := s.default, options := s.options,
        secret := s.secret.getD false }

def AppProcessorAttribute.get_spec (a : AppProcessorAttribute) : AttributeSpec :=
  { name := a.name, value := a.value }

def AppProcessorAttribute.from_spec (s : AttributeSpec) : AppProcessorAttribute :=
  { name := s.name, value := s.value }

def AppProcessorTag.get_spec (t : AppProcessorTag) : TagSpec :=
  { tag := t.tag }

def AppProcessorTag.from_spec (s : TagSpec) : AppProcessorTag :=
  { tag := s.tag }

/-- The parameter-parsing loop of `AppProcessor.from_spec` (the only
fallible part of it). -/
def parseParameters : List ParameterSpec → Except String (List AppProcessorParameter)
  | [] => .ok []
  | s :: rest => do
    let p ← AppProcessorParameter.from_spec s
    let ps ← parseParameters rest
    .ok (p :: ps)

def AppProcessor.get_spec (p : AppProcessor) : ProcessorSpec :=
  { name := p.name, description := p.description, label := p.label,
    inputs := p.inputs.map AppProcessorInput.get_spec,
    outputs := p.outputs.map AppProcessorOutput.get_spec,
    parameters := p.parameters.map AppProcessorParameter.get_spec,
    attributes := p.attributes.map AppProcessorAttribute.get_spec,
    tags := p.tags.map AppProcessorTag.get_spec }

def AppProcessor.from_spec (s : ProcessorSpec) : Except String AppProcessor := do
  let params ← parseParameters s.parameters
  .ok { name := s.name, description := s.description, label := s.label,
        inputs := s.inputs.map AppProcessorInput.from_spec,
        outputs := s.outputs.map AppProcessorOutput.from_spec,
        parameters := params,
        attributes := s.attributes.map AppProcessorAttribute.from_spec,
        tags := s.tags.map AppProcessorTag.from_spec }

def App.get_spec (a : App) : AppSpec :=
  { name := a.name, description := a.description,
    appImage := a.appImage, appExecutable := a.appExecutable,
    executable := a.appExecutable,
    processors := a.processors.map AppProcessor.get_spec }

/-- The processor-parsing loop of `App.from_spec`. -/
def parseProcessors : List ProcessorSpec → Except String (List AppProcessor)
  | [] => .ok []
  | s :: rest => do
    let p ← AppProcessor.from_spec s
    let ps ← parseProcessors rest
    .ok (p :: ps)

def App.from_spec (s : AppSpec) : Except String App := do
  let a ← App.init s.name s.description s.appImage s.appExecutable
  let procs ← parseProcessors s.processors
  .ok { a with processors := procs }

/-- `App.from_spec_uri` (App.py): resolve the spec URI (the resolver is an
external collaborator, passed as a function), parse it, then attach the
placement options. -/
def App.from_spec_uri (resolve : String → AppSpec) (specUri : String)
    (awsBatchJobQueue awsBatchJobDefinition : Option String)
    (slurmOpts : Option ComputeResourceSlurmOpts) : Except String App := do
  let a ← App.from_spec (resolve specUri)
  .ok { a with awsBatchJobQueue := awsBatchJobQueue,
               awsBatchJobDefinition := awsBatchJobDefinition,
               slurmOpts := slurmOpts }

/-! ### The compute-resource daemon (start_compute_resource.py) -/

/-- `DendroJob` (dendro_types.py), restricted to the fields the dispatcher
reads.  The remaining fields (files, parameters, processor spec, ...) are
payload for the executor collaborator and are never inspected by the
dispatcher.  `timestampCreated` is a Python float, modelled as a rational. -/
structure DendroJob where
  jobId : String
  jobPrivateKey : String
  processorName : String
  status : String
  timestampCreated : Rat
deriving DecidableEq

/-- `max_simultaneous_local_jobs` (module constant). -/
def maxSimultaneousLocalJobs : Nat := 2

/-- `Daemon._find_app_with_processor`: first app (in load order) having a
processor of the given name, else `None`. -/
def findAppWithProcessor : List App → String → Option App
  | [], _ => none
  | app :: rest, pname =>
    if app.processors.any (fun p => p.name = pname) then some app
    else findAppWithProcessor rest pname

/-- `Daemon._get_job_resource_type`. -/
def getJobResourceType (apps : List App) (job : DendroJob) : Option String :=
  match findAppWithProcessor apps job.processorName with
  | none => none
  | some app =>
    if app.awsBatchJobQueue ≠ none then some "aws_batch"
    else if app.slurmOpts ≠ none then some "slurm"
    else some "local"

/-- `Daemon._is_local_job`. -/
def isLocalJob (apps : List App) (job : DendroJob) : Bool :=
  getJobResourceType apps job = some "local"

/-- `Daemon._is_aws_batch_job`. -/
def isAwsBatchJob (apps : List App) (job : DendroJob) : Bool :=
  getJobResourceType apps job = some "aws_batch"

/-- `Daemon._is_slurm_job`. -/
def isSlurmJob (apps : List App) (job : DendroJob) : Bool :=
  getJobResourceType apps job = some "slurm"

/-- `Daemon._job_is_pending`. -/
def jobIsPending (job : DendroJob) : Bool :=
  job.status = "pending"

/-- Stable insertion of a job into a list ordered by `timestampCreated`:
the new job goes after every already-present job of key ≤ its key. -/
def insertByTimestamp (j : DendroJob) : List DendroJob → List DendroJob
  | [] => [j]
  | k :: ks =>
    if j.timestampCreated ≤ k.timestampCreated then j :: k :: ks
    else k :: insertByTimestamp j ks

/-- `_sort_jobs_by_timestamp_created`, i.e. Python's stable
`sorted(jobs, key=lambda job: job.timestampCreated)`, embedded as a stable
insertion sort (a stable sort's output is uniquely determined by the key
order and the input order, so any stable sort is a faithful embedding). -/
def sortJobsByTimestampCreated : List DendroJob → List DendroJob
  | [] => []
  | j :: js => insertByTimestamp j (sortJobsByTimestampCreated js)

/-- Lines 144-150 of start_compute_resource.py: the list of local jobs the
tick passes to `_start_job`, in order. -/
def localJobsToStart (apps : List App) (jobs : List DendroJob) : List DendroJob :=
  let localJobs := jobs.filter (fun j => isLocalJob apps j)
  let numNonPendingLocalJobs :=
    (localJobs.filter (fun j => ¬ j.status = "pending")).length
  if numNonPendingLocalJobs < maxSimultaneousLocalJobs then
    let pendingLocalJobs := localJobs.filter (fun j => j.status = "pending")
    let pendingSorted := sortJobsByTimestampCreated pendingLocalJobs
    let numToStart :=
      min (maxSimultaneousLocalJobs - numNonPendingLocalJobs) pendingSorted.length
    pendingSorted.take numToStart
  else []

/-- Observable side effects of the dispatcher. -/
inductive Effect where
  /-- The backend launcher `_start_job` (in `_start_job.py`, an external
  collaborator) was invoked for this job. -/
  | launch (jobId : String)
  /-- `_set_job_status` PUT to the control plane. -/
  | setJobStatus (jobId : String) (status : String) (error : Option String)
  /-- `SlurmJobHandler.add_job` for the handler keyed by this processor. -/
  | slurmAddJob (processorName : String) (jobId : String)
deriving DecidableEq

/-- The backend launcher collaborator: may return normally or raise. -/
abbrev Launcher := DendroJob → App → Except String Unit

/-- Result of `Daemon._start_job`: the new attempted-start set plus the
effect trace.  The Python method never lets an exception escape. -/
structure StartResult where
  attempted : List String
  effects : List Effect
deriving DecidableEq

/-- `Daemon._start_job` (lines 190-221). -/
def startJob (launcher : Launcher) (apps : List App)
    (attempted : List String) (job : DendroJob) : StartResult :=
  if job.jobId ∈ attempted then
    { attempted := attempted, effects := [] }
  else
    let attempted := job.jobId :: attempted
    match findAppWithProcessor apps job.processorName with
    | none =>
      { attempted := attempted,
        effects := [.setJobStatus job.jobId "failed"
          (some ("Could not find app with processor name " ++ job.processorName))] }
    | some app =>
      match launcher job app with
      | .ok _ =>
        { attempted := attempted, effects := [.launch job.jobId] }
      | .error e =>
        { attempted := attempted,
          effects := [.launch job.jobId,
            .setJobStatus job.jobId "failed"
              (some ("Failed to start job: " ++ e))] }

/-- Fold `_start_job` over a list of jobs, threading the attempted-start
set and concatenating effect traces. -/
def runStartJobs (launcher : Launcher) (apps : List App)
    (attempted : List String) : List DendroJob → List String × List Effect
  | [] => (attempted, [])
  | j :: js =>
    let r := startJob launcher apps attempted j
    let rest := runStartJobs launcher apps r.attempted js
    (rest.1, r.effects ++ rest.2)

/-- The SLURM section of `_handle_jobs` (lines 160-165): add each pending
SLURM job to its handler; raise `ComputeResourceException` at the first
job whose processor has no handler (aborting the loop there). -/
def addSlurmJobs (handlers : List String) :
    List DendroJob → List Effect × Option String
  | [] => ([], none)
  | j :: js =>
    if j.processorName ∈ handlers then
      let rest := addSlurmJobs handlers js
      (.slurmAddJob j.processorName j.jobId :: rest.1, rest.2)
    else
      ([], some ("Unexpected: Could not find slurm job handler for processor "
        ++ j.processorName))

/-- Result of one `Daemon._handle_jobs` call: the attempted-start set, the
effect trace, and the exception (if any) that propagates to the caller. -/
structure HandleResult where
  attempted : List String
  effects : List Effect
  error : Option String
deriving DecidableEq

/-- `Daemon._handle_jobs` (lines 127-165), given the job list returned by
the unfinished-jobs fetch.  The identity/fetch plumbing (an external HTTP
collaborator) is outside the model; `jobs` is the validated response. -/
def handleJobs (launcher : Launcher) (apps : List App) (handlers : List String)
    (attempted : List String) (jobs : List DendroJob) : HandleResult :=
  let r1 := runStartJobs launcher apps attempted (localJobsToStart apps jobs)
  let awsBatchJobs := jobs.filter (fun j => isAwsBatchJob apps j)
  let r2 := runStartJobs launcher apps r1.1 awsBatchJobs
  let slurmJobs := jobs.filter (fun j => isSlurmJob apps j && jobIsPending j)
  let r3 := addSlurmJobs handlers slurmJobs
  { attempted := r2.1, effects := r1.2 ++ r2.2 ++ r3.1, error := r3.2 }

/-- Pub/sub message envelope: only the `type` field is interpreted. -/
structure PubsubMessage where
  type : String
deriving DecidableEq

/-- `time_scale_factor` in `Daemon.start`. -/
def timeScaleFactor (usingMock : Bool) : Rat :=
  if usingMock then 10000 else 1

/-- The trigger computation of `Daemon.start` (lines 103-110):
`need_to_handle_jobs` after the elapsed-time test and the message loop. -/
def needToHandleJobs (elapsed : Rat) (tsf : Rat)
    (msgs : List PubsubMessage) : Bool :=
  let need := decide (elapsed > 600 / tsf)
  msgs.foldl (fun need msg =>
    let need := if msg.type = "newPendingJob" then true else need
    if msg.type = "jobStatusChaged" then true else need) need

/-- The per-tick inputs of `Daemon.start`: the wall clock at the top of
the iteration, the drained pub/sub messages, and the unfinished jobs the
control plane would return if polled on this tick. -/
structure TickInput where
  now : Rat
  msgs : List PubsubMessage
  jobs : List DendroJob
deriving DecidableEq

/-- The mutable loop state of `Daemon.start` relevant to dispatching. -/
structure LoopState where
  timerHandleJobs : Rat
  attempted : List String
deriving DecidableEq

/-- Result of one iteration of the `while True` loop in `Daemon.start`. -/
structure TickResult where
  state : LoopState
  didHandleJobs : Bool
  effects : List Effect
  error : Option String
deriving DecidableEq

/-- One iteration of `Daemon.start`'s loop (lines 102-113): compute the
trigger; if it fires, reset the timer and run `_handle_jobs`.  There is no
`try`/`except` here: an exception from `_handle_jobs` propagates. -/
def daemonTick (launcher : Launcher) (apps : List App) (handlers : List String)
    (usingMock : Bool) (st : LoopState) (t : TickInput) : TickResult :=
  let elapsed := t.now - st.timerHandleJobs
  if needToHandleJobs elapsed (timeScaleFactor usingMock) t.msgs then
    let r := handleJobs launcher apps handlers st.attempted t.jobs
    { state := { timerHandleJobs := t.now, attempted := r.attempted },
      didHandleJobs := true, effects := r.effects, error := r.error }
  else
    { state := st, didHandleJobs := false, effects := [], error := none }

/-- Result of running `Daemon.start`'s loop over a finite schedule of tick
inputs: final state, concatenated effects, the uncaught exception (if one
occurred), and the tick inputs never reached because of it. -/
structure LoopResult where
  state : LoopState
  effects : List Effect
  error : Option String
  unprocessed : List TickInput
deriving DecidableEq

/-- `Daemon.start`'s `while True` loop over a finite schedule.  An
exception raised by `_handle_jobs` is not caught anywhere in `start` (nor
in `start_compute_resource`), so it terminates the loop: the remaining
ticks are never executed. -/
def daemonLoop (launcher : Launcher) (apps : List App) (handlers : List String)
    (usingMock : Bool) (st : LoopState) : List TickInput → LoopResult
  | [] => { state := st, effects := [], error := none, unprocessed := [] }
  | t :: ts =>
    let r := daemonTick launcher apps handlers usingMock st t
    match r.error with
    | some e =>
      { state := r.state, effects := r.effects, error := some e,
        unprocessed := ts }
    | none =>
      let rest := daemonLoop launcher apps handlers usingMock r.state ts
      { state := rest.state, effects := r.effects ++ rest.effects,
        error := rest.error, unprocessed := rest.unprocessed }

/-- `DendroComputeResourceApp` (dendro_types.py). -/
structure DendroComputeResourceApp where
  name : String
  specUri : String
  container : Option String
  awsBatch : Option ComputeResourceAwsBatchOpts
  slurm : Option ComputeResourceSlurmOpts
deriving DecidableEq

/-- `_load_apps_from_compute_resource_apps` (lines 251-293): for each
record, raise if both AWS Batch and SLURM options are set, otherwise load
the app from its spec URI with the placement options attached. -/
def loadAppsFromComputeResourceApps (resolve : String → AppSpec) :
    List DendroComputeResourceApp → Except String (List App)
  | [] => .ok []
  | a :: rest => do
    let qd ← match a.awsBatch with
      | some opts =>
        match a.slurm with
        | some _ =>
          Except.error "App has awsBatch opts but also has slurm opts"
        | none => Except.ok (some opts.jobQueue, some opts.jobDefinition)
      | none => Except.ok ((none : Option String), (none : Option String))
    let app ← App.from_spec_uri resolve a.specUri qd.1 qd.2 a.slurm
    let apps ← loadAppsFromComputeResourceApps resolve rest
    .ok (app :: apps)

/-- The handler-construction loop in `Daemon.__init__` (lines 47-50): the
set of processor names for which a SLURM handler is registered. -/
def buildSlurmHandlers (apps : List App) : List String :=
  apps.foldl (fun acc app =>
    acc ++ app.processors.filterMap (fun p =>
      if app.slurmOpts ≠ none then some p.name else none)) []

/-- `Except.isOk` as a plain definition. -/
def exceptIsOk {α : Type} : Except String α → Bool
  | .ok _ => true
  | .error _ => false

/-! ### Context objects and `_setattr_where_name_may_have_dots` (App.py) -/

/-- The value bound to an attribute of a `ContextObject`: either an opaque
non-object value (an input/output file handle or a parameter value) or a
nested `ContextObject`, whose `__dict__` is an insertion-ordered
association list. -/
inductive CtxVal where
  | leaf (v : ParamValue)
  | obj (attrs : List (String × CtxVal))

/-- A `ContextObject`'s attribute dictionary. -/
abbrev Ctx := List (String × CtxVal)

/-- Python `getattr(obj, name)` / `hasattr` on a context object. -/
def getAttr (o : Ctx) (name : String) : Option CtxVal :=
  match o with
  | [] => none
  | (k, v) :: rest => if k = name then some v else getAttr rest name

/-- Python `setattr(obj, name, v)` on a context object: replaces an
existing binding in place (dicts preserve insertion order), else appends. -/
def setAttr (o : Ctx) (name : String) (v : CtxVal) : Ctx :=
  match o with
  | [] => [(name, v)]
  | (k, w) :: rest =>
    if k = name then (k, v) :: rest else (k, w) :: setAttr rest name v

/-- `_setattr_where_name_may_have_dots(obj, name, value)` with the name
already split on dots.  Walking through a segment bound to a non-object
value raises (`setattr` on such a Python value raises `AttributeError`);
a missing intermediate segment is created as a fresh empty
`ContextObject`; an existing intermediate object is mutated in place,
modelled by rebuilding its binding at the same position. -/
def setattrDots (o : Ctx) : List String → CtxVal → Except String Ctx
  | [], _ => .ok o
  | [p], v => .ok (setAttr o p v)
  | p :: q :: rest, v =>
    match getAttr o p with
    | some (.leaf _) => .error ("AttributeError: " ++ p)
    | some (.obj c) => do
      let cNew ← setattrDots c (q :: rest) v
      .ok (setAttr o p (.obj cNew))
    | none => do
      let cNew ← setattrDots ([] : Ctx) (q :: rest) v
      .ok (setAttr o p (.obj cNew))

/-- Follow `getattr` through a dotted path. -/
def getPath (o : Ctx) : List String → Option CtxVal
  | [] => none
  | [p] => getAttr o p
  | p :: q :: rest =>
    match getAttr o p with
    | some (.obj c) => getPath c (q :: rest)
    | _ => none

/-- Boolean list-prefix test on paths. -/
def isPathPrefixOf : List String → List String → Bool
  | [], _ => true
  | _ :: _, [] => false
  | a :: as, b :: bs => a = b && isPathPrefixOf as bs

/-! ### Helper lemmas: the stable sort -/

/-- Comparison key of `_sort_jobs_by_timestamp_created`. -/
def jobLE (a b : DendroJob) : Prop :=
  a.timestampCreated ≤ b.timestampCreated

/-- Decidable test `j.timestampCreated = t`, used to state stability. -/
def tsEq (t : Rat) (j : DendroJob) : Bool :=
  j.timestampCreated = t

theorem mem_insertByTimestamp {b j : DendroJob} {l : List DendroJob} :
    b ∈ insertByTimestamp j l ↔ b = j ∨ b ∈ l := by
  induction l with
  | nil => simp [insertByTimestamp]
  | cons k ks ih =>
    simp only [insertByTimestamp]
    by_cases hle : j.timestampCreated ≤ k.timestampCreated
    · rw [if_pos hle]
      simp [List.mem_cons]
    · rw [if_neg hle]
      simp [List.mem_cons, ih]
      tauto

theorem perm_insertByTimestamp (j : DendroJob) (l : List DendroJob) :
    (insertByTimestamp j l).Perm (j :: l) := by
  induction l with
  | nil => simp [insertByTimestamp]
  | cons k ks ih =>
    simp only [insertByTimestamp]
    by_cases hle : j.timestampCreated ≤ k.timestampCreated
    · rw [if_pos hle]
    · rw [if_neg hle]
      exact (ih.cons k).trans (List.Perm.swap j k ks)

theorem perm_sortJobsByTimestampCreated (l : List DendroJob) :
    (sortJobsByTimestampCreated l).Perm l := by
  induction l with
  | nil => simp [sortJobsByTimestampCreated]
  | cons j js ih =>
    simp only [sortJobsByTimestampCreated]
    exact (perm_insertByTimestamp j _).trans (ih.cons j)

theorem pairwise_insertByTimestamp {j : DendroJob} {l : List DendroJob}
    (h : List.Pairwise jobLE l) :
    List.Pairwise jobLE (insertByTimestamp j l) := by
  induction l with
  | nil => simp [insertByTimestamp, List.pairwise_singleton]
  | cons k ks ih =>
    rcases List.pairwise_cons.mp h with ⟨hk, hks⟩
    simp only [insertByTimestamp]
    by_cases hle : j.timestampCreated ≤ k.timestampCreated
    · rw [if_pos hle]
      refine List.Pairwise.cons ?_ h
      intro b hb
      rcases List.mem_cons.mp hb with rfl | hb
      · exact hle
      · exact le_trans hle (hk b hb)
    · rw [if_neg hle]
      refine List.Pairwise.cons ?_ (ih hks)
      intro b hb
      rcases mem_insertByTimestamp.mp hb with rfl | hb
      · exact le_of_not_le hle
      · exact hk b hb

theorem pairwise_sortJobsByTimestampCreated (l : List DendroJob) :
    List.Pairwise jobLE (sortJobsByTimestampCreated l) := by
  induction l with
  | nil => simp [sortJobsByTimestampCreated]
  | cons j js ih =>
    exact pairwise_insertByTimestamp ih

theorem filter_insertByTimestamp (j : DendroJob) (l : List DendroJob) (t : Rat) :
    (insertByTimestamp j l).filter (tsEq t) =
      if j.timestampCreated = t then j :: l.filter (tsEq t)
      else l.filter (tsEq t) := by
  induction l with
  | nil =>
    by_cases hjt : j.timestampCreated = t
    · rw [if_pos hjt]; simp [insertByTimestamp, List.filter, tsEq, hjt]
    · rw [if_neg hjt]; simp [insertByTimestamp, List.filter, tsEq, hjt]
  | cons k ks ih =>
    simp only [insertByTimestamp]
    by_cases hle : j.timestampCreated ≤ k.timestampCreated
    · rw [if_pos hle]
      by_cases hjt : j.timestampCreated = t
      · rw [if_pos hjt]; simp [List.filter_cons, tsEq, hjt]
      · rw [if_neg hjt]; simp [List.filter_cons, tsEq, hjt]
    · rw [if_neg hle]
      have hkj : k.timestampCreated < j.timestampCreated := not_le.mp hle
      by_cases hjt : j.timestampCreated = t
      · rw [if_pos hjt]
        have hkt : ¬ k.timestampCreated = t := by
          rw [← hjt]; exact ne_of_lt hkj
        simp [List.filter_cons, tsEq, hkt, ih, hjt]
        try rfl
      · rw [if_neg hjt]
        simp only [List.filter_cons, ih, if_neg hjt]

theorem filter_sortJobsByTimestampCreated (l : List DendroJob) (t : Rat) :
    (sortJobsByTimestampCreated l).filter (tsEq t) = l.filter (tsEq t) := by
  induction l with
  | nil => simp [sortJobsByTimestampCreated]
  | cons j js ih =>
    simp only [sortJobsByTimestampCreated, filter_insertByTimestamp, ih,
      List.filter_cons]
    by_cases hjt : j.timestampCreated = t
    · simp [tsEq, hjt]
    · simp [tsEq, hjt]

theorem take_min_length {α : Type} (l : List α) (n : Nat) :
    l.take (min n l.length) = l.take n := by
  rcases le_total n l.length with h | h
  · rw [min_eq_left h]
  · rw [min_eq_right h, List.take_length, List.take_of_length_le h]

/-! ### Helper lemmas: the start-job trace -/

/-- Recognize a launcher invocation for a given job id. -/
def isLaunchOf (jid : String) : Effect → Bool
  | .launch j => j = jid
  | _ => false

/-- Number of launcher invocations for a given job id in a trace. -/
def launchCount (jid : String) (effs : List Effect) : Nat :=
  (effs.filter (isLaunchOf jid)).length

theorem launchCount_append (jid : String) (a b : List Effect) :
    launchCount jid (a ++ b) = launchCount jid a + launchCount jid b := by
  simp [launchCount, List.filter_append]

theorem startJob_noop_of_mem {launcher : Launcher} {apps : List App}
    {attempted : List String} {job : DendroJob}
    (h : job.jobId ∈ attempted) :
    startJob launcher apps attempted job =
      { attempted := attempted, effects := [] } := by
  simp [startJob, h]

theorem startJob_jobId_mem_attempted (launcher : Launcher) (apps : List App)
    (attempted : List String) (job : DendroJob) :
    job.jobId ∈ (startJob launcher apps attempted job).attempted := by
  by_cases h : job.jobId ∈ attempted
  · rw [startJob_noop_of_mem h]; exact h
  · simp only [startJob, if_neg h]
    rcases hfind : findAppWithProcessor apps job.processorName with _ | app
    · simp
    · rcases hl : launcher job app with _ | e <;> simp [hl]

theorem startJob_attempted_mono {launcher : Launcher} {apps : List App}
    {attempted : List String} {job : DendroJob} {x : String}
    (h : x ∈ attempted) :
    x ∈ (startJob launcher apps attempted job).attempted := by
  by_cases hmem : job.jobId ∈ attempted
  · rw [startJob_noop_of_mem hmem]; exact h
  · simp only [startJob, if_neg hmem]
    rcases hfind : findAppWithProcessor apps job.processorName with _ | app
    · simp [h]
    · rcases hl : launcher job app with _ | e <;> simp [hl, h]

theorem launchCount_startJob_le_one (launcher : Launcher) (apps : List App)
    (attempted : List String) (job : DendroJob) (jid : String) :
    launchCount jid (startJob launcher apps attempted job).effects ≤ 1 := by
  by_cases hmem : job.jobId ∈ attempted
  · rw [startJob_noop_of_mem hmem]; simp [launchCount]
  · simp only [startJob, if_neg hmem]
    rcases hfind : findAppWithProcessor apps job.processorName with _ | app
    · simp [launchCount, List.filter_cons, isLaunchOf]
    · rcases hl : launcher job app with _ | e
      · simp only [hl]
        by_cases hj : job.jobId = jid <;>
          simp [launchCount, List.filter_cons, isLaunchOf, hj]
      · simp only [hl]
        by_cases hj : job.jobId = jid <;>
          simp [launchCount, List.filter_cons, isLaunchOf, hj]

theorem launchCount_startJob_of_ne {launcher : Launcher} {apps : List App}
    {attempted : List String} {job : DendroJob} {jid : String}
    (h : job.jobId ≠ jid) :
    launchCount jid (startJob launcher apps attempted job).effects = 0 := by
  by_cases hmem : job.jobId ∈ attempted
  · rw [startJob_noop_of_mem hmem]; simp [launchCount]
  · simp only [startJob, if_neg hmem]
    rcases hfind : findAppWithProcessor apps job.processorName with _ | app
    · simp [launchCount, List.filter_cons, isLaunchOf]
    · rcases hl : launcher job app with _ | e <;>
        simp [hl, launchCount, List.filter_cons, isLaunchOf, h]

theorem runStartJobs_attempted_mono {launcher : Launcher} {apps : List App}
    {attempted : List String} {jobs : List DendroJob} {x : String}
    (h : x ∈ attempted) :
    x ∈ (runStartJobs launcher apps attempted jobs).1 := by
  induction jobs generalizing attempted with
  | nil => exact h
  | cons j js ih =>
    simp only [runStartJobs]
    exact ih (startJob_attempted_mono h)

theorem runStartJobs_launchCount_zero {launcher : Launcher} {apps : List App}
    {attempted : List String} {jobs : List DendroJob} {jid : String}
    (h : jid ∈ attempted) :
    launchCount jid (runStartJobs launcher apps attempted jobs).2 = 0 := by
  induction jobs generalizing attempted with
  | nil => simp [runStartJobs, launchCount]
  | cons j js ih =>
    simp only [runStartJobs, launchCount_append]
    have h1 : launchCount jid (startJob launcher apps attempted j).effects = 0 := by
      by_cases hj : j.jobId = jid
      · rw [startJob_noop_of_mem (hj ▸ h)]; simp [launchCount]
      · exact launchCount_startJob_of_ne hj
    rw [h1, ih (startJob_attempted_mono h)]

theorem runStartJobs_launchCount_le_one (launcher : Launcher) (apps : List App)
    (attempted : List String) (jobs : List DendroJob) (jid : String) :
    launchCount jid (runStartJobs launcher apps attempted jobs).2 ≤ 1 := by
  induction jobs generalizing attempted with
  | nil => simp [runStartJobs, launchCount]
  | cons j js ih =>
    simp only [runStartJobs, launchCount_append]
    by_cases hj : j.jobId = jid
    · have hmem : jid ∈ (startJob launcher apps attempted j).attempted :=
        hj ▸ startJob_jobId_mem_attempted launcher apps attempted j
      have h2 : launchCount jid (runStartJobs launcher apps
          (startJob launcher apps attempted j).attempted js).2 = 0 :=
        runStartJobs_launchCount_zero hmem
      rw [h2]
      simpa using launchCount_startJob_le_one launcher apps attempted j jid
    · rw [launchCount_startJob_of_ne hj]
      simpa using ih ((startJob launcher apps attempted j).attempted)

/-! ### Concrete sample data for witnesses and counterexamples -/

/-- A minimal processor with a given name. -/
def sampleProcessor (pname : String) : AppProcessor :=
  { name := pname, description := "d", label := "l",
    inputs := [], outputs := [], parameters := [], attributes := [], tags := [] }

/-- An app with neither AWS Batch nor SLURM options (a "local" app). -/
def localApp : App :=
  { name := "app1", description := "d", appImage := some "img",
    appExecutable := some "/app/main.py",
    processors := [sampleProcessor "p1"],
    awsBatchJobQueue := none, awsBatchJobDefinition := none, slurmOpts := none }

/-- An app with SLURM options. -/
def slurmApp : App :=
  { name := "app2", description := "d", appImage := some "img",
    appExecutable := some "/app/main.py",
    processors := [sampleProcessor "sp"],
    awsBatchJobQueue := none, awsBatchJobDefinition := none,
    slurmOpts := some { partition := none, time := none,
                        cpusPerTask := none, otherOpts := none } }

/-- A job record with the fields the dispatcher reads. -/
def mkJob (id pname status : String) (ts : Rat) : DendroJob :=
  { jobId := id, jobPrivateKey := "k", processorName := pname,
    status := status, timestampCreated := ts }

/-- A launcher that returns normally. -/
def launcherOk : Launcher := fun _ _ => .ok ()

/-- A launcher that always raises. -/
def launcherFail : Launcher := fun _ _ => .error "boom"

/-! ### Claim theorems -/

/-- C1: For every jobId, the dispatcher's start-job operation invokes the
backend launcher at most once per daemon lifetime: over any sequence of
`_start_job` calls (with any launcher, including one that throws) the
trace contains at most one launcher invocation for a given jobId; a call
for a jobId already in the attempted-start set returns immediately with no
action; and the jobId is in the attempted-start set as soon as the call
returns, so once attempted (even unsuccessfully) it is never retried. -/
theorem startJob_at_most_once (launcher : Launcher) (apps : List App)
    (attempted : List String) (jobs : List DendroJob) (jid : String) :
    launchCount jid (runStartJobs launcher apps attempted jobs).2 ≤ 1
    ∧ (∀ job : DendroJob, job.jobId ∈ attempted →
        startJob launcher apps attempted job =
          { attempted := attempted, effects := [] })
    ∧ (∀ job : DendroJob, job.jobId ∈ (startJob launcher apps attempted job).attempted)
    ∧ (jid ∈ attempted →
        launchCount jid (runStartJobs launcher apps attempted jobs).2 = 0) := by
  refine ⟨runStartJobs_launchCount_le_one launcher apps attempted jobs jid,
    fun job h => startJob_noop_of_mem h,
    fun job => startJob_jobId_mem_attempted launcher apps attempted job,
    fun h => runStartJobs_launchCount_zero h⟩

/-- C1 witness: with jobId `j1` already attempted and a throwing launcher,
a run over a job list launches `j1` at most once (in fact zero times) and
the call on `j1` is a no-op. -/
theorem startJob_at_most_once_witness :
    launchCount "j1"
      (runStartJobs launcherFail [localApp] ["j1"]
        [mkJob "j1" "p1" "pending" 1]).2 ≤ 1
    ∧ startJob launcherFail [localApp] ["j1"] (mkJob "j1" "p1" "pending" 1) =
        { attempted := ["j1"], effects := [] }
    ∧ launchCount "j1"
        (runStartJobs launcherFail [localApp] ["j1"]
          [mkJob "j1" "p1" "pending" 1]).2 = 0 := by
  have h := startJob_at_most_once launcherFail [localApp] ["j1"]
    [mkJob "j1" "p1" "pending" 1] "j1"
  exact ⟨h.1, h.2.1 (mkJob "j1" "p1" "pending" 1) (by decide),
    h.2.2.2 (by decide)⟩

/-- C2: On a dispatcher tick the local phase starts (passes to
`_start_job`), when `numBusyLocal < maxSimultaneousLocalJobs = 2`, exactly
the first `2 − numBusyLocal` pending local jobs in `timestampCreated`
ascending order (ties broken by API order: the sort is stable), and none
otherwise.  The sort used is sorted ascending, preserves the relative
order of jobs with equal timestamps, and is a permutation of its input. -/
theorem dispatcher_local_admission (apps : List App) (jobs : List DendroJob) :
    maxSimultaneousLocalJobs = 2
    ∧ localJobsToStart apps jobs =
        (if ((jobs.filter (fun j => isLocalJob apps j)).filter
              (fun j => ¬ j.status = "pending")).length < maxSimultaneousLocalJobs then
          (sortJobsByTimestampCreated
            ((jobs.filter (fun j => isLocalJob apps j)).filter
              (fun j => j.status = "pending"))).take
            (maxSimultaneousLocalJobs -
              ((jobs.filter (fun j => isLocalJob apps j)).filter
                (fun j => ¬ j.status = "pending")).length)
        else [])
    ∧ List.Pairwise jobLE
        (sortJobsByTimestampCreated
          ((jobs.filter (fun j => isLocalJob apps j)).filter
            (fun j => j.status = "pending")))
    ∧ (∀ t : Rat,
        (sortJobsByTimestampCreated
          ((jobs.filter (fun j => isLocalJob apps j)).filter
            (fun j => j.status = "pending"))).filter (tsEq t) =
        ((jobs.filter (fun j => isLocalJob apps j)).filter
            (fun j => j.status = "pending")).filter (tsEq t))
    ∧ (sortJobsByTimestampCreated
        ((jobs.filter (fun j => isLocalJob apps j)).filter
          (fun j => j.status = "pending"))).Perm
        ((jobs.filter (fun j => isLocalJob apps j)).filter
          (fun j => j.status = "pending")) := by
  refine ⟨rfl, ?_, pairwise_sortJobsByTimestampCreated _,
    fun t => filter_sortJobsByTimestampCreated _ t,
    perm_sortJobsByTimestampCreated _⟩
  simp only [localJobsToStart]
  split
  · exact take_min_length _ _
  · rfl

/-- The message fold in `Daemon.start`, with an arbitrary initial flag. -/
theorem needToHandleJobs_foldl (msgs : List PubsubMessage) (b : Bool) :
    msgs.foldl (fun need msg =>
      let need := if msg.type = "newPendingJob" then true else need
      if msg.type = "jobStatusChaged" then true else need) b =
    (b || msgs.any (fun m =>
      m.type = "newPendingJob" || m.type = "jobStatusChaged")) := by
  induction msgs generalizing b with
  | nil => simp
  | cons m ms ih =>
    simp only [List.foldl_cons, List.any_cons, ih]
    by_cases h1 : m.type = "newPendingJob" <;>
      by_cases h2 : m.type = "jobStatusChaged" <;>
        simp [h1, h2, Bool.or_assoc, Bool.or_comm, Bool.or_left_comm]

theorem needToHandleJobs_iff (elapsed tsf : Rat) (msgs : List PubsubMessage) :
    needToHandleJobs elapsed tsf msgs = true ↔
      (600 / tsf < elapsed
        ∨ ∃ m ∈ msgs, m.type = "newPendingJob" ∨ m.type = "jobStatusChaged") := by
  simp only [needToHandleJobs, needToHandleJobs_foldl, Bool.or_eq_true,
    decide_eq_true_eq, List.any_eq_true, gt_iff_lt]

/-- C5: An orchestrator tick performs dispatcher work (`_handle_jobs`) if
and only if a drained message of type exactly `newPendingJob` or exactly
`jobStatusChaged` (sic) arrived, or more than 10 minutes (600 s, scaled by
the mock time factor) elapsed since the last work tick; other message
types never trigger work, and a non-triggering tick changes nothing. -/
theorem daemon_tick_trigger (launcher : Launcher) (apps : List App)
    (handlers : List String) (usingMock : Bool) (st : LoopState) (t : TickInput) :
    ((daemonTick launcher apps handlers usingMock st t).didHandleJobs = true
      ↔ (600 / timeScaleFactor usingMock < t.now - st.timerHandleJobs
          ∨ ∃ m ∈ t.msgs, m.type = "newPendingJob" ∨ m.type = "jobStatusChaged"))
    ∧ timeScaleFactor false = 1 ∧ timeScaleFactor true = 10000
    ∧ ((daemonTick launcher apps handlers usingMock st t).didHandleJobs = false →
        daemonTick launcher apps handlers usingMock st t =
          { state := st, didHandleJobs := false, effects := [], error := none }) := by
  refine ⟨?_, rfl, rfl, ?_⟩
  · rw [← needToHandleJobs_iff (t.now - st.timerHandleJobs) (timeScaleFactor usingMock) t.msgs]
    by_cases h : needToHandleJobs (t.now - st.timerHandleJobs)
        (timeScaleFactor usingMock) t.msgs = true
    · simp [daemonTick, h]
    · simp [daemonTick, h]
  · intro h
    by_cases hneed : needToHandleJobs (t.now - st.timerHandleJobs)
        (timeScaleFactor usingMock) t.msgs = true
    · simp [daemonTick, hneed] at h
    · simp [daemonTick, hneed]

/-- C5 witness: a tick whose only drained message has an uninterpreted
type, with no timer expiry, performs no dispatcher work and leaves the
loop state untouched. -/
theorem daemon_tick_trigger_witness :
    daemonTick launcherOk [localApp] [] false
      { timerHandleJobs := 0, attempted := [] }
      { now := 0, msgs := [{ type := "other" }], jobs := [] } =
    { state := { timerHandleJobs := 0, attempted := [] },
      didHandleJobs := false, effects := [], error := none } :=
  (daemon_tick_trigger launcherOk [localApp] [] false
    { timerHandleJobs := 0, attempted := [] }
    { now := 0, msgs := [{ type := "other" }], jobs := [] }).2.2.2
    (by simp [daemonTick, needToHandleJobs, timeScaleFactor]; norm_num)

theorem bind_error {α β : Type} (e : String) (f : α → Except String β) :
    (Except.error e >>= f) = Except.error e := rfl

theorem bind_ok {α β : Type} (a : α) (f : α → Except String β) :
    (Except.ok a >>= f) = f a := rfl

theorem exceptIsOk_from_spec_uri (resolve : String → AppSpec) (uri : String)
    (q d : Option String) (s : Option ComputeResourceSlurmOpts) :
    exceptIsOk (App.from_spec_uri resolve uri q d s) =
      exceptIsOk (App.from_spec (resolve uri)) := by
  rcases h : App.from_spec (resolve uri) with e | a <;>
    simp [App.from_spec_uri, h, bind_error, bind_ok, exceptIsOk]

/-- C6: Loading the compute-resource app records raises whenever a record
sets both the AWS Batch and the SLURM options (the load therefore fails at
startup), and succeeds when every record has at most one of the two (and
every record's resolved spec parses). -/
theorem load_apps_rejects_dual_backend (resolve : String → AppSpec)
    (records : List DendroComputeResourceApp) :
    ((∃ r ∈ records, r.awsBatch ≠ none ∧ r.slurm ≠ none) →
      exceptIsOk (loadAppsFromComputeResourceApps resolve records) = false)
    ∧ ((∀ r ∈ records, r.awsBatch = none ∨ r.slurm = none) →
       (∀ r ∈ records, exceptIsOk (App.from_spec (resolve r.specUri)) = true) →
      exceptIsOk (loadAppsFromComputeResourceApps resolve records) = true) := by
  induction records with
  | nil =>
    constructor
    · rintro ⟨r, hr, -⟩; exact absurd hr (List.not_mem_nil r)
    · intro _ _; rfl
  | cons a rest ih =>
    constructor
    · rintro ⟨r, hr, hboth⟩
      rcases List.mem_cons.mp hr with rfl | hr
      · obtain ⟨x, hx⟩ := Option.ne_none_iff_exists'.mp hboth.1
        obtain ⟨y, hy⟩ := Option.ne_none_iff_exists'.mp hboth.2
        simp [loadAppsFromComputeResourceApps, hx, hy, bind_error, exceptIsOk]
      · -- the offending record is further down the list
        simp only [loadAppsFromComputeResourceApps]
        rcases hx : a.awsBatch with _ | x
        · rcases happ : App.from_spec_uri resolve a.specUri none none a.slurm with e | app
          · simp [hx, happ, bind_error, bind_ok, exceptIsOk]
          · have hrec := ih.1 ⟨r, hr, hboth⟩
            rcases hload : loadAppsFromComputeResourceApps resolve rest with e | apps
            · simp [hx, happ, hload, bind_error, bind_ok, exceptIsOk]
            · rw [hload] at hrec; simp [exceptIsOk] at hrec
        · rcases hy : a.slurm with _ | y
          · rcases happ : App.from_spec_uri resolve a.specUri
                (some x.jobQueue) (some x.jobDefinition) none with e | app
            · simp [hx, hy, happ, bind_error, bind_ok, exceptIsOk]
            · have hrec := ih.1 ⟨r, hr, hboth⟩
              rcases hload : loadAppsFromComputeResourceApps resolve rest with e | apps
              · simp [hx, hy, happ, hload, bind_error, bind_ok, exceptIsOk]
              · rw [hload] at hrec; simp [exceptIsOk] at hrec
          · simp [hx, hy, bind_error, exceptIsOk]
    · intro hone hspec
      have ha := hone a (List.mem_cons_self a rest)
      have haspec := hspec a (List.mem_cons_self a rest)
      have hrest := ih.2 (fun r hr => hone r (List.mem_cons_of_mem a hr))
        (fun r hr => hspec r (List.mem_cons_of_mem a hr))
      rcases hload : loadAppsFromComputeResourceApps resolve rest with e | apps
      · rw [hload] at hrest; simp [exceptIsOk] at hrest
      · rcases hx : a.awsBatch with _ | x
        · have := exceptIsOk_from_spec_uri resolve a.specUri none none a.slurm
          rcases happ : App.from_spec_uri resolve a.specUri none none a.slurm with e | app
          · rw [happ] at this; rw [haspec] at this; simp [exceptIsOk] at this
          · simp [loadAppsFromComputeResourceApps, hx, happ, hload,
              bind_error, bind_ok, exceptIsOk]
        · rcases hy : a.slurm with _ | y
          · have := exceptIsOk_from_spec_uri resolve a.specUri
              (some x.jobQueue) (some x.jobDefinition) none
            rcases happ : App.from_spec_uri resolve a.specUri
                (some x.jobQueue) (some x.jobDefinition) none with e | app
            · rw [happ] at this; rw [haspec] at this; simp [exceptIsOk] at this
            · simp [loadAppsFromComputeResourceApps, hx, hy, happ, hload,
                bind_error, bind_ok, exceptIsOk]
          · rcases ha with h | h
            · rw [hx] at h; exact absurd h (by simp)
            · rw [hy] at h; exact absurd h (by simp)

/-- C8: When the backend launcher raises inside `_start_job`, the
operation returns normally (the exception is swallowed) and the trace is
exactly the launcher invocation followed by a control-plane status update
setting the job to `failed` with an error string containing the
stringified exception message. -/
theorem startJob_launcher_exception (launcher : Launcher) (apps : List App)
    (attempted : List String) (job : DendroJob) (app : App) (e : String)
    (hmem : job.jobId ∉ attempted)
    (happ : findAppWithProcessor apps job.processorName = some app)
    (hl : launcher job app = .error e) :
    startJob launcher apps attempted job =
      { attempted := job.jobId :: attempted,
        effects := [.launch job.jobId,
          .setJobStatus job.jobId "failed"
            (some ("Failed to start job: " ++ e))] }
    ∧ ∃ pre post, "Failed to start job: " ++ e = pre ++ (e ++ post) := by
  constructor
  · simp [startJob, hmem, happ, hl]
  · exact ⟨"Failed to start job: ", "", by simp⟩

/-- C8 witness: a concrete throwing launcher produces the failed-status
effect with the exception message embedded, and the call returns. -/
theorem startJob_launcher_exception_witness :
    startJob launcherFail [localApp] [] (mkJob "j1" "p1" "pending" 1) =
      { attempted := ["j1"],
        effects := [.launch "j1",
          .setJobStatus "j1" "failed"
            (some ("Failed to start job: " ++ "boom"))] }
    ∧ ∃ pre post, "Failed to start job: " ++ "boom" = pre ++ ("boom" ++ post) := by
  exact startJob_launcher_exception launcherFail [localApp] []
    (mkJob "j1" "p1" "pending" 1) localApp "boom"
    (by decide) (by decide) rfl

instance exceptDecEq {ε α : Type} [DecidableEq ε] [DecidableEq α] :
    DecidableEq (Except ε α) := fun x y =>
  match x, y with
  | .ok a, .ok b =>
    if h : a = b then .isTrue (by rw [h])
    else .isFalse (by intro hc; cases hc; exact h rfl)
  | .error e, .error f =>
    if h : e = f then .isTrue (by rw [h])
    else .isFalse (by intro hc; cases hc; exact h rfl)
  | .ok _, .error _ => .isFalse (by intro hc; cases hc)
  | .error _, .ok _ => .isFalse (by intro hc; cases hc)

/-- A spec resolver returning the (round-trippable) spec of `localApp`. -/
def sampleResolve : String → AppSpec := fun _ => App.get_spec localApp

/-- A compute-resource app record with neither backend option. -/
def plainRecord : DendroComputeResourceApp :=
  { name := "a", specUri := "u", container := none, awsBatch := none, slurm := none }

/-- A compute-resource app record with both backend options set. -/
def badRecord : DendroComputeResourceApp :=
  { name := "b", specUri := "u", container := none,
    awsBatch := some { jobQueue := "q", jobDefinition := "jd" },
    slurm := some { partition := none, time := none,
                    cpusPerTask := none, otherOpts := none } }

/-- C6 witness: a concrete dual-backend record is rejected and a concrete
single-backend record is accepted. -/
theorem load_apps_rejects_dual_backend_witness :
    exceptIsOk (loadAppsFromComputeResourceApps sampleResolve [badRecord]) = false
    ∧ exceptIsOk (loadAppsFromComputeResourceApps sampleResolve [plainRecord]) = true :=
  ⟨(load_apps_rejects_dual_backend sampleResolve [badRecord]).1
      ⟨badRecord, by decide, by decide, by decide⟩,
   (load_apps_rejects_dual_backend sampleResolve [plainRecord]).2
      (by decide) (by decide)⟩

/-- C7 counterexample: two loaded apps both carrying a processor named
`p1` are accepted by app loading (daemon startup does not fail with an
error on duplicate processor names). -/
theorem duplicate_processor_names_accepted :
    loadAppsFromComputeResourceApps sampleResolve [plainRecord, plainRecord] =
      .ok [localApp, localApp]
    ∧ localApp.processors.any (fun p => p.name = "p1") = true := by
  decide

/-- C7 amended: duplicate processor names are not rejected at startup;
the daemon's processor-name lookup resolves to the *first* app in load
order containing the processor (`List.find?` semantics), so the
processorName-to-app mapping is total by first match rather than enforced
to be duplicate-free. -/
theorem findAppWithProcessor_first_match (apps : List App) (pname : String) :
    findAppWithProcessor apps pname =
      apps.find? (fun app => app.processors.any (fun p => p.name = pname)) := by
  induction apps with
  | nil => rfl
  | cons a rest ih =>
    by_cases h : a.processors.any (fun p => p.name = pname) = true
    · simp [findAppWithProcessor, h, List.find?_cons_of_pos]
    · have h' : a.processors.any (fun p => p.name = pname) = false :=
        Bool.eq_false_iff.mpr h
      simp [findAppWithProcessor, h', List.find?_cons_of_neg, ih]

/-- Filtering by `p` after filtering by a weaker predicate `q` is the same
as filtering by `p` alone. -/
theorem filter_sub {α : Type} (p q : α → Bool) (l : List α)
    (h : ∀ a, p a = true → q a = true) :
    (l.filter q).filter p = l.filter p := by
  induction l with
  | nil => rfl
  | cons a as ih =>
    by_cases hq : q a = true
    · by_cases hp : p a = true
      · simp [List.filter_cons, hq, hp, ih]
      · simp [List.filter_cons, hq, Bool.eq_false_iff.mpr hp, ih]
    · have hp : p a = false := by
        rcases Bool.eq_false_or_eq_true (p a) with h' | h'
        · exact absurd (h a h') hq
        · exact h'
      simp [List.filter_cons, Bool.eq_false_iff.mpr hq, hp, ih]

theorem isLocalJob_isSome (apps : List App) (j : DendroJob)
    (h : isLocalJob apps j = true) :
    (findAppWithProcessor apps j.processorName).isSome = true := by
  rcases hf : findAppWithProcessor apps j.processorName with _ | app
  · simp [isLocalJob, getJobResourceType, hf] at h
  · simp

theorem isAwsBatchJob_isSome (apps : List App) (j : DendroJob)
    (h : isAwsBatchJob apps j = true) :
    (findAppWithProcessor apps j.processorName).isSome = true := by
  rcases hf : findAppWithProcessor apps j.processorName with _ | app
  · simp [isAwsBatchJob, getJobResourceType, hf] at h
  · simp

theorem isSlurmJob_isSome (apps : List App) (j : DendroJob)
    (h : (isSlurmJob apps j && jobIsPending j) = true) :
    (findAppWithProcessor apps j.processorName).isSome = true := by
  rcases hf : findAppWithProcessor apps j.processorName with _ | app
  · simp [isSlurmJob, getJobResourceType, hf] at h
  · simp

/-- C3 counterexample: a tick over a single pending job whose
`processorName` resolves to no app produces *no* effect at all — in
particular no `failed` status report — and no exception; the claim that
the tick reports such a job as `failed` is false. -/
theorem unknown_processor_not_reported :
    (handleJobs launcherOk [localApp] [] []
      [mkJob "jx" "nonexistent" "pending" 1]).effects = []
    ∧ (handleJobs launcherOk [localApp] [] []
        [mkJob "jx" "nonexistent" "pending" 1]).error = none
    ∧ findAppWithProcessor [localApp] "nonexistent" = none := by
  decide

/-- C3 amended: a job whose `processorName` resolves to no loaded app is
classified to no backend and is invisible to the tick — the tick behaves
exactly as if the job were absent (so it continues with the remaining
jobs, reporting nothing for the unknown one).  The `failed`-with-message
report for an unknown processor happens only in the start-job operation
itself, which the tick never reaches for such a job. -/
theorem unknown_processor_skipped (launcher : Launcher) (apps : List App)
    (handlers attempted : List String) (jobs : List DendroJob) :
    handleJobs launcher apps handlers attempted jobs =
      handleJobs launcher apps handlers attempted
        (jobs.filter (fun j => (findAppWithProcessor apps j.processorName).isSome))
    ∧ (∀ job : DendroJob,
        findAppWithProcessor apps job.processorName = none →
        job.jobId ∉ attempted →
        startJob launcher apps attempted job =
          { attempted := job.jobId :: attempted,
            effects := [.setJobStatus job.jobId "failed"
              (some ("Could not find app with processor name "
                ++ job.processorName))] }) := by
  constructor
  · have h1 : (jobs.filter
        (fun j => (findAppWithProcessor apps j.processorName).isSome)).filter
          (fun j => isLocalJob apps j) =
        jobs.filter (fun j => isLocalJob apps j) :=
      filter_sub _ _ _ (fun j => isLocalJob_isSome apps j)
    have h2 : (jobs.filter
        (fun j => (findAppWithProcessor apps j.processorName).isSome)).filter
          (fun j => isAwsBatchJob apps j) =
        jobs.filter (fun j => isAwsBatchJob apps j) :=
      filter_sub _ _ _ (fun j => isAwsBatchJob_isSome apps j)
    have h3 : (jobs.filter
        (fun j => (findAppWithProcessor apps j.processorName).isSome)).filter
          (fun j => isSlurmJob apps j && jobIsPending j) =
        jobs.filter (fun j => isSlurmJob apps j && jobIsPending j) :=
      filter_sub _ _ _ (fun j => isSlurmJob_isSome apps j)
    simp only [handleJobs, localJobsToStart, h1, h2, h3]
  · intro job hfind hmem
    simp [startJob, hmem, hfind]

/-- C3 amended witness: the tick on a concrete unknown-processor job
equals the tick on the empty job list, and a direct start-job call on the
job does report it failed. -/
theorem unknown_processor_skipped_witness :
    handleJobs launcherOk [localApp] [] []
        [mkJob "jx" "nonexistent" "pending" 1] =
      handleJobs launcherOk [localApp] [] []
        ([mkJob "jx" "nonexistent" "pending" 1].filter
          (fun j => (findAppWithProcessor [localApp] j.processorName).isSome))
    ∧ startJob launcherOk [localApp] [] (mkJob "jx" "nonexistent" "pending" 1) =
        { attempted := ["jx"],
          effects := [.setJobStatus "jx" "failed"
            (some ("Could not find app with processor name "
              ++ "nonexistent"))] } := by
  have h := unknown_processor_skipped launcherOk [localApp] [] []
    [mkJob "jx" "nonexistent" "pending" 1]
  exact ⟨h.1, h.2 (mkJob "jx" "nonexistent" "pending" 1) (by decide) (by decide)⟩

theorem addSlurmJobs_error_iff (handlers : List String) (l : List DendroJob) :
    (addSlurmJobs handlers l).2 ≠ none ↔ ∃ j ∈ l, j.processorName ∉ handlers := by
  induction l with
  | nil => simp [addSlurmJobs]
  | cons j js ih =>
    by_cases h : j.processorName ∈ handlers
    · simp only [addSlurmJobs, if_pos h, List.mem_cons]
      constructor
      · intro hne
        obtain ⟨j', hj', hnm⟩ := ih.mp hne
        exact ⟨j', Or.inr hj', hnm⟩
      · rintro ⟨j', hj' | hj', hnm⟩
        · exact absurd (hj' ▸ h) hnm
        · exact ih.mpr ⟨j', hj', hnm⟩
    · simp only [addSlurmJobs, if_neg h, List.mem_cons]
      constructor
      · intro _
        exact ⟨j, Or.inl rfl, h⟩
      · intro _
        simp

/-- A tick input containing one pending SLURM job. -/
def tickA : TickInput :=
  { now := 1000, msgs := [], jobs := [mkJob "js" "sp" "pending" 1] }

/-- A later tick input. -/
def tickB : TickInput :=
  { now := 2000, msgs := [], jobs := [] }

/-- C4 counterexample: with a pending SLURM job whose processor has no
registered handler, the tick raises a plain exception, it escapes
`Daemon.start` uncaught (the loop records an uncaught error), and the
following tick is never executed — refuting the claim that the
orchestrator catches the exception and continues on the next tick. -/
theorem slurm_missing_handler_kills_daemon :
    (daemonLoop launcherOk [slurmApp] [] false
      { timerHandleJobs := 0, attempted := [] } [tickA, tickB]).error =
        some ("Unexpected: Could not find slurm job handler for processor "
          ++ "sp")
    ∧ (daemonLoop launcherOk [slurmApp] [] false
        { timerHandleJobs := 0, attempted := [] } [tickA, tickB]).unprocessed =
          [tickB] := by
  have hneed : needToHandleJobs (1000 : Rat) (timeScaleFactor false) [] = true := by
    simp [needToHandleJobs, timeScaleFactor]
    norm_num
  have herr : (handleJobs launcherOk [slurmApp] [] []
      [mkJob "js" "sp" "pending" 1]).error =
        some ("Unexpected: Could not find slurm job handler for processor "
          ++ "sp") := by
    decide
  simp [daemonLoop, daemonTick, tickA, tickB, hneed, herr]

/-- C4 amended: if a triggered tick's job list contains a pending SLURM
job whose `processorName` has no registered handler, `_handle_jobs`
raises a plain exception, and — `Daemon.start` having no handler around
`_handle_jobs` — the exception propagates out of the event loop: the loop
terminates with that error and no subsequent tick runs. -/
theorem slurm_missing_handler_propagates (launcher : Launcher) (apps : List App)
    (handlers : List String) (usingMock : Bool) (st : LoopState)
    (t : TickInput) (ts : List TickInput)
    (hneed : needToHandleJobs (t.now - st.timerHandleJobs)
      (timeScaleFactor usingMock) t.msgs = true)
    (hmiss : ∃ j ∈ t.jobs, (isSlurmJob apps j && jobIsPending j) = true
      ∧ j.processorName ∉ handlers) :
    ∃ e, (handleJobs launcher apps handlers st.attempted t.jobs).error = some e
      ∧ daemonLoop launcher apps handlers usingMock st (t :: ts) =
        { state := ⟨t.now,
            (handleJobs launcher apps handlers st.attempted t.jobs).attempted⟩,
          effects := (handleJobs launcher apps handlers st.attempted t.jobs).effects,
          error := some e,
          unprocessed := ts } := by
  have herr : (handleJobs launcher apps handlers st.attempted t.jobs).error ≠ none := by
    show (addSlurmJobs handlers
      (t.jobs.filter (fun j => isSlurmJob apps j && jobIsPending j))).2 ≠ none
    rw [addSlurmJobs_error_iff]
    obtain ⟨j, hj, hpred, hnm⟩ := hmiss
    exact ⟨j, List.mem_filter.mpr ⟨hj, hpred⟩, hnm⟩
  obtain ⟨e, he⟩ := Option.ne_none_iff_exists'.mp herr
  refine ⟨e, he, ?_⟩
  simp only [daemonLoop, daemonTick, hneed, if_true, he]

/-- C4 amended witness: concrete instantiation on `tickA` followed by
`tickB`. -/
theorem slurm_missing_handler_propagates_witness :
    ∃ e, (handleJobs launcherOk [slurmApp] [] [] tickA.jobs).error = some e
      ∧ daemonLoop launcherOk [slurmApp] [] false
          { timerHandleJobs := 0, attempted := [] } [tickA, tickB] =
        { state := ⟨tickA.now,
            (handleJobs launcherOk [slurmApp] [] [] tickA.jobs).attempted⟩,
          effects := (handleJobs launcherOk [slurmApp] [] [] tickA.jobs).effects,
          error := some e,
          unprocessed := [tickB] } :=
  slurm_missing_handler_propagates launcherOk [slurmApp] [] false
    { timerHandleJobs := 0, attempted := [] } tickA [tickB]
    (by simp [tickA, needToHandleJobs, timeScaleFactor]; norm_num)
    ⟨mkJob "js" "sp" "pending" 1, by decide, by decide, by decide⟩

/-! ### Spec round trip (C9) -/

theorem typeFromString_typeToString (t : ParamType) :
    typeFromString (typeToString t) = .ok t := by
  cases t <;> rfl

theorem param_roundtrip (p : AppProcessorParameter) :
    AppProcessorParameter.from_spec p.get_spec = .ok p := by
  cases p with
  | mk n d ty df op sec =>
    cases sec <;>
      simp [AppProcessorParameter.from_spec, AppProcessorParameter.get_spec,
        typeFromString_typeToString, bind_ok, Option.getD]

theorem input_roundtrip (i : AppProcessorInput) :
    AppProcessorInput.from_spec i.get_spec = i := by
  cases i with
  | mk n d l =>
    cases l <;>
      simp [AppProcessorInput.from_spec, AppProcessorInput.get_spec, Option.getD]

theorem parseParameters_roundtrip (ps : List AppProcessorParameter) :
    parseParameters (ps.map AppProcessorParameter.get_spec) = .ok ps := by
  induction ps with
  | nil => rfl
  | cons p rest ih =>
    simp [parseParameters, param_roundtrip, ih, bind_ok]

theorem output_roundtrip (o : AppProcessorOutput) :
    AppProcessorOutput.from_spec o.get_spec = o := rfl

theorem attribute_roundtrip (a : AppProcessorAttribute) :
    AppProcessorAttribute.from_spec a.get_spec = a := rfl

theorem tag_roundtrip (t : AppProcessorTag) :
    AppProcessorTag.from_spec t.get_spec = t := rfl

theorem map_roundtrip_inputs (l : List AppProcessorInput) :
    l.map (AppProcessorInput.from_spec ∘ AppProcessorInput.get_spec) = l := by
  induction l with
  | nil => rfl
  | cons x xs ih => simp [input_roundtrip, ih, Function.comp]

theorem map_roundtrip_outputs (l : List AppProcessorOutput) :
    l.map (AppProcessorOutput.from_spec ∘ AppProcessorOutput.get_spec) = l := by
  induction l with
  | nil => rfl
  | cons x xs ih => simp [output_roundtrip, ih, Function.comp]

theorem map_roundtrip_attributes (l : List AppProcessorAttribute) :
    l.map (AppProcessorAttribute.from_spec ∘ AppProcessorAttribute.get_spec) = l := by
  induction l with
  | nil => rfl
  | cons x xs ih => simp [attribute_roundtrip, ih, Function.comp]

theorem map_roundtrip_tags (l : List AppProcessorTag) :
    l.map (AppProcessorTag.from_spec ∘ AppProcessorTag.get_spec) = l := by
  induction l with
  | nil => rfl
  | cons x xs ih => simp [tag_roundtrip, ih, Function.comp]

theorem processor_roundtrip (p : AppProcessor) :
    AppProcessor.from_spec p.get_spec = .ok p := by
  cases p with
  | mk n d lb ins outs params attrs tags =>
    simp [AppProcessor.from_spec, AppProcessor.get_spec,
      parseParameters_roundtrip, bind_ok, List.map_map,
      map_roundtrip_inputs, map_roundtrip_outputs,
      map_roundtrip_attributes, map_roundtrip_tags]

theorem parseProcessors_roundtrip (ps : List AppProcessor) :
    parseProcessors (ps.map AppProcessor.get_spec) = .ok ps := by
  induction ps with
  | nil => rfl
  | cons p rest ih =>
    simp [parseProcessors, processor_roundtrip, ih, bind_ok]

/-- C9: Spec serialization round-trips: for every `App` whose constructor
check passed (`appImage` or `appExecutable` truthy — any app actually
built satisfies this), `App.from_spec (app.get_spec)` succeeds and
returns the app unchanged on every spec-visible field (the placement
options, which `from_spec` does not read, come back as `None`).  The
undefined-default sentinel of a parameter and the `list` flag of an input
are omitted from the emitted dict and restored on parse. -/
theorem app_spec_roundtrip (a : App)
    (h : strOptFalsy a.appImage = false ∨ strOptFalsy a.appExecutable = false) :
    App.from_spec (App.get_spec a) =
      .ok { a with awsBatchJobQueue := none, awsBatchJobDefinition := none,
                   slurmOpts := none }
    ∧ (∀ p : AppProcessorParameter, p.default = none →
        (p.get_spec).default = none
        ∧ AppProcessorParameter.from_spec p.get_spec = .ok p)
    ∧ (∀ i : AppProcessorInput, i.list = false →
        (i.get_spec).list = none
        ∧ AppProcessorInput.from_spec i.get_spec = i) := by
  refine ⟨?_, ?_, ?_⟩
  · have hinit : App.init a.name a.description a.appImage a.appExecutable =
        .ok ⟨a.name, a.description, a.appImage, a.appExecutable, [],
          none, none, none⟩ := by
      rcases h with h | h
      · simp [App.init, h]
      · by_cases himg : strOptFalsy a.appImage
        · simp [App.init, himg, h]
        · simp [App.init, himg]
    cases a with
    | mk n d img exe procs q jd s =>
      simp only [App.from_spec, App.get_spec] at hinit ⊢
      simp [hinit, bind_ok, parseProcessors_roundtrip]
  · intro p hp
    exact ⟨by simp [AppProcessorParameter.get_spec, hp], param_roundtrip p⟩
  · intro i hi
    exact ⟨by simp [AppProcessorInput.get_spec, hi], input_roundtrip i⟩

/-- A parameter whose default is the undefined sentinel. -/
def sampleParam : AppProcessorParameter :=
  { name := "n", description := "d", type := .tInt,
    default := none, options := none, secret := false }

/-- A non-list input. -/
def sampleInput : AppProcessorInput :=
  { name := "i", description := "d", list := false }

/-- C9 witness: the concrete app `localApp` (and a concrete
undefined-default parameter and non-list input) round-trips. -/
theorem app_spec_roundtrip_witness :
    App.from_spec (App.get_spec localApp) =
      .ok { localApp with awsBatchJobQueue := none,
                          awsBatchJobDefinition := none, slurmOpts := none }
    ∧ ((sampleParam.get_spec).default = none
        ∧ AppProcessorParameter.from_spec sampleParam.get_spec = .ok sampleParam)
    ∧ ((sampleInput.get_spec).list = none
        ∧ AppProcessorInput.from_spec sampleInput.get_spec = sampleInput) := by
  have h := app_spec_roundtrip localApp (Or.inl (by decide))
  exact ⟨h.1, h.2.1 sampleParam (by decide), h.2.2 sampleInput (by decide)⟩

/-! ### Dotted-attribute assignment (C10) -/

theorem getAttr_setAttr_self (o : Ctx) (name : String) (v : CtxVal) :
    getAttr (setAttr o name v) name = some v := by
  induction o with
  | nil => simp [setAttr, getAttr]
  | cons kv rest ih =>
    obtain ⟨k, w⟩ := kv
    by_cases h : k = name
    · simp [setAttr, getAttr, h]
    · simp [setAttr, getAttr, h, ih]

theorem getAttr_setAttr_ne (o : Ctx) {name name' : String} (v : CtxVal)
    (h : name' ≠ name) :
    getAttr (setAttr o name v) name' = getAttr o name' := by
  induction o with
  | nil => simp [setAttr, getAttr, Ne.symm h]
  | cons kv rest ih =>
    obtain ⟨k, w⟩ := kv
    by_cases hk : k = name
    · have hk' : k ≠ name' := by rw [hk]; exact Ne.symm h
      simp [setAttr, getAttr, hk, hk', Ne.symm h]
    · by_cases hk' : k = name'
      · simp [setAttr, getAttr, hk, hk', h]
      · simp [setAttr, getAttr, hk, hk', ih]

theorem getPath_nil_ctx (q : List String) : getPath ([] : Ctx) q = none := by
  cases q with
  | nil => rfl
  | cons a as =>
    cases as with
    | nil => rfl
    | cons b bs => rfl

theorem getPath_head_congr {o o' : Ctx} {q1 : String} (qrest : List String)
    (h : getAttr o q1 = getAttr o' q1) :
    getPath o (q1 :: qrest) = getPath o' (q1 :: qrest) := by
  cases qrest with
  | nil => simp [getPath, h]
  | cons b bs => simp [getPath, h]

/-- C10: For a dotted name `p1.….pk` (k ≥ 1), when
`_setattr_where_name_may_have_dots` completes (every already-present
intermediate segment holds a context object, not a plain value), the
result satisfies: reading the full path yields the assigned value; any
path diverging from the assigned one (neither a prefix of the other) reads
exactly as before, so existing intermediate objects are reused and their
previously set sibling attributes are preserved; and every proper prefix
of the assigned path now resolves to a context object (missing
intermediates were created as fresh empty `ContextObject`s). -/
theorem setattrDots_spec (parts : List String) (o oNew : Ctx) (v : CtxVal)
    (hne : parts ≠ [])
    (h : setattrDots o parts v = .ok oNew) :
    getPath oNew parts = some v
    ∧ (∀ q : List String, isPathPrefixOf parts q = false →
        isPathPrefixOf q parts = false → getPath oNew q = getPath o q)
    ∧ (∀ q : List String, q ≠ [] → isPathPrefixOf q parts = true → q ≠ parts →
        ∃ c, getPath oNew q = some (.obj c)) := by
  induction parts generalizing o oNew with
  | nil => exact absurd rfl hne
  | cons p rest ih =>
    cases rest with
    | nil =>
      have hnew : setAttr o p v = oNew := by
        simpa [setattrDots] using h
      subst hnew
      refine ⟨?_, ?_, ?_⟩
      · simp [getPath, getAttr_setAttr_self]
      · intro q hq1 hq2
        cases q with
        | nil => simp [getPath]
        | cons a as =>
          have hap : a ≠ p := by
            intro hc; subst hc
            simp [isPathPrefixOf] at hq1
          exact getPath_head_congr as (getAttr_setAttr_ne o v hap)
      · intro q hq hpre hne'
        cases q with
        | nil => exact absurd rfl hq
        | cons a as =>
          cases as with
          | nil =>
            simp [isPathPrefixOf] at hpre
            exact absurd (by rw [hpre]) hne'
          | cons b bs =>
            simp [isPathPrefixOf] at hpre
    | cons p2 rest2 =>
      rcases hget : getAttr o p with _ | val
      · rcases hrec : setattrDots ([] : Ctx) (p2 :: rest2) v with e | cNew
        · simp [setattrDots, hget, hrec, bind_error] at h
        · simp only [setattrDots, hget, hrec, bind_ok, Except.ok.injEq] at h
          subst h
          obtain ⟨ih1, ih2, ih3⟩ := ih ([] : Ctx) cNew (by simp) hrec
          refine ⟨?_, ?_, ?_⟩
          · simp [getPath, getAttr_setAttr_self, ih1]
          · intro q hq1 hq2
            cases q with
            | nil => simp [getPath]
            | cons a as =>
              by_cases hap : a = p
              · subst hap
                cases as with
                | nil => simp [isPathPrefixOf] at hq2
                | cons b bs =>
                  have h1 : isPathPrefixOf (p2 :: rest2) (b :: bs) = false := by
                    simpa [isPathPrefixOf] using hq1
                  have h2 : isPathPrefixOf (b :: bs) (p2 :: rest2) = false := by
                    simpa [isPathPrefixOf] using hq2
                  simp [getPath, getAttr_setAttr_self, hget,
                    ih2 (b :: bs) h1 h2, getPath_nil_ctx]
              · exact getPath_head_congr as (getAttr_setAttr_ne o (.obj cNew) hap)
          · intro q hq hpre hne'
            cases q with
            | nil => exact absurd rfl hq
            | cons a as =>
              have hap : a = p := by
                simp [isPathPrefixOf] at hpre
                exact hpre.1
              subst hap
              cases as with
              | nil => exact ⟨cNew, by simp [getPath, getAttr_setAttr_self]⟩
              | cons b bs =>
                have hpre' : isPathPrefixOf (b :: bs) (p2 :: rest2) = true := by
                  simpa [isPathPrefixOf] using hpre
                have hne2 : (b :: bs) ≠ (p2 :: rest2) := by
                  intro hc; apply hne'; rw [hc]
                obtain ⟨c, hc⟩ := ih3 (b :: bs) (by simp) hpre' hne2
                exact ⟨c, by simp [getPath, getAttr_setAttr_self, hc]⟩
      · cases val with
        | leaf w =>
          simp [setattrDots, hget] at h
        | obj c =>
          rcases hrec : setattrDots c (p2 :: rest2) v with e | cNew
          · simp [setattrDots, hget, hrec, bind_error] at h
          · simp only [setattrDots, hget, hrec, bind_ok, Except.ok.injEq] at h
            subst h
            obtain ⟨ih1, ih2, ih3⟩ := ih c cNew (by simp) hrec
            refine ⟨?_, ?_, ?_⟩
            · simp [getPath, getAttr_setAttr_self, ih1]
            · intro q hq1 hq2
              cases q with
              | nil => simp [getPath]
              | cons a as =>
                by_cases hap : a = p
                · subst hap
                  cases as with
                  | nil => simp [isPathPrefixOf] at hq2
                  | cons b bs =>
                    have h1 : isPathPrefixOf (p2 :: rest2) (b :: bs) = false := by
                      simpa [isPathPrefixOf] using hq1
                    have h2 : isPathPrefixOf (b :: bs) (p2 :: rest2) = false := by
                      simpa [isPathPrefixOf] using hq2
                    simp [getPath, getAttr_setAttr_self, hget,
                      ih2 (b :: bs) h1 h2]
                · exact getPath_head_congr as (getAttr_setAttr_ne o (.obj cNew) hap)
            · intro q hq hpre hne'
              cases q with
              | nil => exact absurd rfl hq
              | cons a as =>
                have hap : a = p := by
                  simp [isPathPrefixOf] at hpre
                  exact hpre.1
                subst hap
                cases as with
                | nil => exact ⟨cNew, by simp [getPath, getAttr_setAttr_self]⟩
                | cons b bs =>
                  have hpre' : isPathPrefixOf (b :: bs) (p2 :: rest2) = true := by
                    simpa [isPathPrefixOf] using hpre
                  have hne2 : (b :: bs) ≠ (p2 :: rest2) := by
                    intro hc; apply hne'; rw [hc]
                  obtain ⟨c', hc'⟩ := ih3 (b :: bs) (by simp) hpre' hne2
                  exact ⟨c', by simp [getPath, getAttr_setAttr_self, hc']⟩

/-- A context with one object attribute `a` holding `x = "s"`. -/
def sampleCtx : Ctx := [("a", .obj [("x", .leaf (.str "s"))])]

/-- `sampleCtx` after assigning `a.b := 1`. -/
def sampleCtxNew : Ctx :=
  [("a", .obj [("x", .leaf (.str "s")), ("b", .leaf (.int 1))])]

/-- C10 witness: assigning `a.b` on a concrete context stores the value at
`a.b`, preserves the sibling `a.x`, and leaves `a` an object. -/
theorem setattrDots_spec_witness :
    getPath sampleCtxNew ["a", "b"] = some (.leaf (.int 1))
    ∧ getPath sampleCtxNew ["a", "x"] = getPath sampleCtx ["a", "x"]
    ∧ ∃ c, getPath sampleCtxNew ["a"] = some (.obj c) := by
  have h := setattrDots_spec ["a", "b"] sampleCtx sampleCtxNew
    (.leaf (.int 1)) (by simp) rfl
  exact ⟨h.1, h.2.1 ["a", "x"] (by decide) (by decide),
    h.2.2 ["a"] (by simp) (by decide) (by decide)⟩

end Dendro
